import Mathlib

/-!
# Verification of the Java/Spring static-analysis engine

Shallow embedding of the extraction-and-graph-assembly core of the
repository (`analyze.py`, `feign_client_parser.py`, `service_mapping.py`)
and proofs about the spec's claims.

Python strings are modelled as Lean `String`s; the Python string methods
used by the source (`strip('"')`, `endswith`, `startswith`, `in`,
`replace`, `upper`, `lower`, slicing) are modelled explicitly below over
character lists so that every definition evaluates inside the kernel.
Python `dict`s are modelled as association lists with insertion-ordered
last-write-wins update semantics (matching CPython); Python `set`s that
are converted back to lists are modelled as insertion-ordered
duplicate-free lists.
-/

namespace SpringParser

/-- Python `str.strip('"')`: remove every leading and trailing `"` character. -/
def stripQuotes (s : String) : String :=
  String.mk (((s.toList.dropWhile (fun c => c = '"')).reverse.dropWhile
    (fun c => c = '"')).reverse)

/-- Python `str.endswith(suf)`. -/
def pyEndsWith (s suf : String) : Bool :=
  suf.toList.isSuffixOf s.toList

/-- Python `str.startswith(pre)`. -/
def pyStartsWith (s pre : String) : Bool :=
  pre.toList.isPrefixOf s.toList

/-- Python `pat in s` (substring containment). -/
def pyContains (s pat : String) : Bool :=
  s.toList.tails.any (fun t => pat.toList.isPrefixOf t)

/-- Fuelled worker for `pyReplace`; each step consumes at least one input
character, so fuel equal to the input length suffices. -/
def replaceFuel (pat rep : List Char) : Nat → List Char → List Char
  | 0, l => l
  | _ + 1, [] => []
  | n + 1, c :: rest =>
    if pat ≠ [] ∧ pat.isPrefixOf (c :: rest) then
      rep ++ replaceFuel pat rep n ((c :: rest).drop pat.length)
    else
      c :: replaceFuel pat rep n rest

/-- Python `str.replace(pat, rep)` for a non-empty pattern: replace all
non-overlapping occurrences left to right.  (The source only ever calls it
with the pattern `"Mapping"`.) -/
def pyReplace (s pat rep : String) : String :=
  String.mk (replaceFuel pat.toList rep.toList s.toList.length s.toList)

/-- Python `str.upper()` restricted to ASCII, which covers every string the
source applies it to (annotation names). -/
def upperChar (c : Char) : Char :=
  if 'a' ≤ c ∧ c ≤ 'z' then Char.ofNat (c.toNat - 32) else c

def pyUpper (s : String) : String :=
  String.mk (s.toList.map upperChar)

/-- Python `str.lower()` restricted to ASCII (applied to Java class names). -/
def lowerChar (c : Char) : Char :=
  if 'A' ≤ c ∧ c ≤ 'Z' then Char.ofNat (c.toNat + 32) else c

def pyLower (s : String) : String :=
  String.mk (s.toList.map lowerChar)

/-- Python slice `s[2:-1]` (used by `resolve_property` on `${...}`). -/
def sliceInner (s : String) : String :=
  String.mk ((s.toList.drop 2).dropLast)

/-- `pathlib.Path(p).name`: the last non-empty path component. -/
def splitOnSlash : List Char → List (List Char)
  | [] => [[]]
  | x :: xs =>
    let r := splitOnSlash xs
    if x = '/' then [] :: r
    else
      match r with
      | [] => [[x]]
      | h :: t => (x :: h) :: t

def pathName (p : String) : String :=
  match ((splitOnSlash p.toList).filter (fun c => c ≠ [])).getLast? with
  | some l => String.mk l
  | none => ""

/-! ## The javalang syntax-tree fragment consumed by the source

The syntax-tree parser is an external collaborator; we model exactly the
shape the source reads: annotations with literal / name-value arguments,
fields with a declared type, declarator names and annotations, methods
with annotations, parameters and a return type, and type declarations. -/

/-- An annotation argument: `javalang.tree.Literal` (carrying the raw
source text of the literal, quotes included), a
`javalang.tree.ElementValuePair` whose value is a literal, a pair whose
value is a member reference (e.g. `fallback = Foo.class`), or anything
else. -/
inductive AnnArg where
  | lit (value : String)
  | pair (name : String) (value : String)
  | pairMember (name : String) (member : String)
  | other
deriving DecidableEq, Repr

structure Annotation where
  name : String
  /-- `ann.arguments`; `None` in javalang is modelled as `[]` (the source
  only ever iterates the arguments after a truthiness test). -/
  args : List AnnArg
deriving DecidableEq, Repr

structure JParam where
  /-- `param.type.name` when `hasattr(param, 'type')`, else `none`. -/
  typeName : Option String
deriving DecidableEq, Repr

structure JField where
  /-- `field.type.name`. -/
  typeName : String
  /-- the names of `field.declarators`. -/
  declarators : List String
  annotations : List Annotation
deriving DecidableEq, Repr

structure JMethod where
  name : String
  annotations : List Annotation
  params : List JParam
  /-- `method.return_type.name` when the return type has a name, else
  `none` (e.g. `void`). -/
  returnType : Option String
deriving DecidableEq, Repr

structure ClassDecl where
  name : String
  annotations : List Annotation
  fields : List JField
  methods : List JMethod
deriving DecidableEq, Repr

/-! ## `analyze.py` : models and endpoint extraction -/

/-- `EndpointInfo` (the `service_calls` field is always set to `[]` by the
extractor and never touched afterwards, so it is omitted). -/
structure EndpointInfo where
  path : String
  method : String
  controller_class : String
  method_name : String
  request_dto : Option String
  response_dto : Option String
deriving DecidableEq, Repr

/-- The recognized mapping annotations (`_parse_endpoint_method`). -/
def mappingAnnotations : List String :=
  ["GetMapping", "PostMapping", "PutMapping",
   "DeleteMapping", "PatchMapping", "RequestMapping"]

/-- `http_method = ann.name.replace('Mapping', '').upper()`, then the
`REQUEST -> GET` default. -/
def verbOf (annName : String) : String :=
  let m := pyUpper (pyReplace annName "Mapping" "")
  if m = "REQUEST" then "GET" else m

/-- The path-accumulation loop: `path += arg.value.strip('"')` for every
`Literal` argument, starting from the base path. -/
def pathArgsConcat (basePath : String) (args : List AnnArg) : String :=
  args.foldl (fun p a =>
    match a with
    | .lit v => p ++ stripQuotes v
    | _ => p) basePath

/-- One step of the request-DTO loop: `request_dto = param_type` when the
parameter's type name ends with `DTO` (no break, so a later match
overwrites an earlier one). -/
def requestDtoStep (acc : Option String) (p : JParam) : Option String :=
  match p.typeName with
  | some t => if pyEndsWith t "DTO" then some t else acc
  | none => acc

/-- The request-DTO loop of `_parse_endpoint_method` (lines 112-116). -/
def findRequestDto (params : List JParam) : Option String :=
  params.foldl requestDtoStep none

/-- The response-DTO check on the return type. -/
def findResponseDto (returnType : Option String) : Option String :=
  match returnType with
  | some t => if pyEndsWith t "DTO" then some t else none
  | none => none

/-- `JavaSpringParser._parse_endpoint_method`: the first annotation whose
name is a mapping annotation determines the endpoint; a method with no
mapping annotation yields `none`. -/
def parseEndpointMethod (m : JMethod) (className basePath : String) :
    Option EndpointInfo :=
  match m.annotations.find? (fun a => mappingAnnotations.contains a.name) with
  | none => none
  | some ann =>
    some { path := pathArgsConcat basePath ann.args
           method := verbOf ann.name
           controller_class := className
           method_name := m.name
           request_dto := findRequestDto m.params
           response_dto := findResponseDto m.returnType }

/-- The base-path extraction loop of `parse_controller`: for every
`RequestMapping` class annotation with a non-empty argument list, every
`Literal` argument reassigns `base_path` (so the last literal wins). -/
def extractBasePath (anns : List Annotation) : String :=
  anns.foldl (fun bp a =>
    if a.name = "RequestMapping" then
      a.args.foldl (fun b arg =>
        match arg with
        | .lit v => stripQuotes v
        | _ => b) bp
    else bp) ""

/-- `parse_controller` restricted to one type declaration: emits endpoints
only for classes carrying `@RestController`. -/
def parseControllerClass (cd : ClassDecl) : List EndpointInfo :=
  if cd.annotations.any (fun a => a.name = "RestController") then
    cd.methods.filterMap
      (fun m => parseEndpointMethod m cd.name (extractBasePath cd.annotations))
  else []

/-! ## `analyze.py` : DTO / entity / service models and parsing -/

structure DtoInfo where
  name : String
  fields : List (String × String)
  used_in_controllers : List String
  used_in_services : List String
  mapped_to_entities : List String
deriving DecidableEq, Repr

/-- a relationship record `{'type': ..., 'field': ..., 'target_entity': ...}`. -/
structure Relationship where
  type : String
  field : String
  target_entity : String
deriving DecidableEq, Repr

structure EntityInfo where
  name : String
  table_name : String
  fields : List (String × String)
  relationships : List Relationship
  mapped_to_dtos : List String
deriving DecidableEq, Repr

structure ServiceInfo where
  name : String
  methods : List String
  used_dtos : List String
  used_entities : List String
deriving DecidableEq, Repr

/-- CPython dict update `d[k] = v`: overwrite in place if the key exists
(keeping its insertion position), else append. -/
def dictInsert (d : List (String × String)) (k v : String) :
    List (String × String) :=
  if d.any (fun p => p.1 = k) then
    d.map (fun p => if p.1 = k then (k, v) else p)
  else d ++ [(k, v)]

/-- The field-collection loop shared by `parse_dto` and `parse_entity`:
`fields[declarator.name] = field_type` for every declarator of every field. -/
def classFields (fs : List JField) : List (String × String) :=
  fs.foldl (fun acc f =>
    f.declarators.foldl (fun a d => dictInsert a d f.typeName) acc) []

/-- `parse_dto` restricted to one type declaration: records a `DtoInfo`
exactly for classes whose name ends with `DTO`. -/
def dtoOfClass (cd : ClassDecl) : Option DtoInfo :=
  if pyEndsWith cd.name "DTO" then
    some { name := cd.name
           fields := classFields cd.fields
           used_in_controllers := []
           used_in_services := []
           mapped_to_entities := [] }
  else none

/-- the recognized relationship annotations in `parse_entity`. -/
def relationshipAnnotations : List String :=
  ["OneToMany", "ManyToOne", "OneToOne", "ManyToMany"]

/-- The relationship loop of `parse_entity`: for every declarator of a
field, every relationship annotation on the field appends one record with
the field's declared type as target. -/
def fieldRelationships (f : JField) : List Relationship :=
  f.declarators.flatMap (fun d =>
    f.annotations.filterMap (fun a =>
      if relationshipAnnotations.contains a.name then
        some { type := a.name, field := d, target_entity := f.typeName }
      else none))

/-- The table-name extraction of `parse_entity`: defaults to the
lower-cased class name; every `@Table` annotation argument that is a
name-value pair named `name` reassigns it (last one wins). -/
def extractTableName (cd : ClassDecl) : String :=
  cd.annotations.foldl (fun tn a =>
    if a.name = "Table" then
      a.args.foldl (fun t arg =>
        match arg with
        | .pair n v => if n = "name" then stripQuotes v else t
        | _ => t) tn
    else tn) (pyLower cd.name)

/-- `parse_entity` restricted to one type declaration: records an
`EntityInfo` exactly for classes carrying `@Entity`. -/
def entityOfClass (cd : ClassDecl) : Option EntityInfo :=
  if cd.annotations.any (fun a => a.name = "Entity") then
    some { name := cd.name
           table_name := extractTableName cd
           fields := classFields cd.fields
           relationships := cd.fields.flatMap fieldRelationships
           mapped_to_dtos := [] }
  else none

/-- Python `set.add` observed through insertion order (the source builds
`used_dtos` / `used_entities` as sets and converts them to lists; set
iteration order is modelled as insertion order). -/
def setAdd (l : List String) (s : String) : List String :=
  if l.contains s then l else l ++ [s]

/-- The classification of one type name inside `parse_service`: DTO-suffix
first, else a previously discovered entity. -/
def serviceUseStep (entities : List EntityInfo)
    (acc : List String × List String) (t : String) :
    List String × List String :=
  if pyEndsWith t "DTO" then (setAdd acc.1 t, acc.2)
  else if entities.any (fun e => e.name = t) then (acc.1, setAdd acc.2 t)
  else acc

/-- `parse_service` restricted to one type declaration, parameterised by
the entities discovered so far (`self.entities` at the time the service
file is processed). -/
def serviceOfClass (entities : List EntityInfo) (cd : ClassDecl) :
    Option ServiceInfo :=
  if cd.annotations.any (fun a => a.name = "Service") then
    let res := cd.methods.foldl
      (fun (acc : List String × List String × List String) m =>
        let ms := acc.1 ++ [m.name]
        let ud := acc.2.1
        let ue := acc.2.2
        let (ud, ue) :=
          match m.returnType with
          | some rt => serviceUseStep entities (ud, ue) rt
          | none => (ud, ue)
        let (ud, ue) := m.params.foldl
          (fun (p : List String × List String) prm =>
            match prm.typeName with
            | some t => serviceUseStep entities p t
            | none => p) (ud, ue)
        (ms, ud, ue)) ([], [], [])
    some { name := cd.name
           methods := res.1
           used_dtos := res.2.1
           used_entities := res.2.2 }
  else none

/-! ## `analyze.py` : accumulated parser state and per-file dispatch -/

/-- The four accumulation collections of `JavaSpringParser`.  The
`dtos` / `entities` / `services` dicts are keyed by the class name, which
the source always stores equal to the record's own `name` field, so they
are modelled as lists of records keyed by `name` (last-write-wins upsert). -/
structure ParserState where
  endpoints : List EndpointInfo
  dtos : List DtoInfo
  entities : List EntityInfo
  services : List ServiceInfo
deriving DecidableEq, Repr

def emptyState : ParserState := ⟨[], [], [], []⟩

/-- dict-style upsert for `self.dtos[name] = ...`. -/
def upsertDto (l : List DtoInfo) (d : DtoInfo) : List DtoInfo :=
  if l.any (fun x => x.name = d.name) then
    l.map (fun x => if x.name = d.name then d else x)
  else l ++ [d]

def upsertEntity (l : List EntityInfo) (e : EntityInfo) : List EntityInfo :=
  if l.any (fun x => x.name = e.name) then
    l.map (fun x => if x.name = e.name then e else x)
  else l ++ [e]

def upsertService (l : List ServiceInfo) (s : ServiceInfo) : List ServiceInfo :=
  if l.any (fun x => x.name = s.name) then
    l.map (fun x => if x.name = s.name then s else x)
  else l ++ [s]

/-- `parse_controller` over a parsed compilation unit. -/
def parseControllerTree (st : ParserState) (tree : List ClassDecl) :
    ParserState :=
  { st with endpoints := st.endpoints ++ tree.flatMap parseControllerClass }

/-- `parse_dto` over a parsed compilation unit. -/
def parseDtoTree (st : ParserState) (tree : List ClassDecl) : ParserState :=
  tree.foldl (fun s cd =>
    match dtoOfClass cd with
    | some d => { s with dtos := upsertDto s.dtos d }
    | none => s) st

/-- `parse_entity` over a parsed compilation unit. -/
def parseEntityTree (st : ParserState) (tree : List ClassDecl) : ParserState :=
  tree.foldl (fun s cd =>
    match entityOfClass cd with
    | some e => { s with entities := upsertEntity s.entities e }
    | none => s) st

/-- `parse_service` over a parsed compilation unit (entity references are
matched against the entities accumulated so far). -/
def parseServiceTree (st : ParserState) (tree : List ClassDecl) : ParserState :=
  tree.foldl (fun s cd =>
    match serviceOfClass s.entities cd with
    | some sv => { s with services := upsertService s.services sv }
    | none => s) st

/-- One source file as seen by `parse_project`: its file name, its raw
text (checked by the textual pre-filter), and the result of handing the
text to the external syntax-tree parser (`none` = parse failure, in which
case every `parse_*` method leaves the state unchanged). -/
structure JavaFile where
  fileName : String
  content : String
  parseResult : Option (List ClassDecl)
deriving DecidableEq, Repr

def onTree (st : ParserState) (f : JavaFile)
    (k : ParserState → List ClassDecl → ParserState) : ParserState :=
  match f.parseResult with
  | none => st
  | some tree => k st tree

/-- The per-file dispatch of `parse_project`: coarse textual marker
pre-filtering with fixed priority, a file matching none is not parsed. -/
def processFilePrefilter (st : ParserState) (f : JavaFile) : ParserState :=
  if pyContains f.content "@RestController" then onTree st f parseControllerTree
  else if pyContains f.content "@Entity" then onTree st f parseEntityTree
  else if pyContains f.fileName "DTO" then onTree st f parseDtoTree
  else if pyContains f.content "@Service" then onTree st f parseServiceTree
  else st

/-- Modelled from the spec: the alternative extraction strategy of §4.2 —
"parsing every file unconditionally and classifying from the parsed
declarations", with the same fixed priority
Controller > Entity > name-suffix-Contract > Service, the classification
signals now read off the parsed declarations instead of the raw text. -/
def processFileDeclClassified (st : ParserState) (f : JavaFile) : ParserState :=
  match f.parseResult with
  | none => st
  | some tree =>
    if tree.any (fun cd => cd.annotations.any (fun a => a.name = "RestController")) then
      parseControllerTree st tree
    else if tree.any (fun cd => cd.annotations.any (fun a => a.name = "Entity")) then
      parseEntityTree st tree
    else if tree.any (fun cd => pyEndsWith cd.name "DTO") then
      parseDtoTree st tree
    else if tree.any (fun cd => cd.annotations.any (fun a => a.name = "Service")) then
      parseServiceTree st tree
    else st

/-! ## `analyze.py` : the Cross-Link Resolver (`analyze_dependencies`) -/

/-- truthiness of `set(dto.fields.keys()) & set(entity.fields.keys())`. -/
def fieldsIntersect (a b : List (String × String)) : Bool :=
  a.any (fun p => b.any (fun q => q.1 = p.1))

/-- The controller back-link loop: for one dto name, the controller
classes appended by the first loop of `analyze_dependencies`, in endpoint
order (request-dto check before response-dto check for each endpoint).
The `in self.dtos` membership guard is implied for the dto under
consideration, since the appends land on `self.dtos[endpoint.request_dto]`. -/
def controllersFor (endpoints : List EndpointInfo) (dname : String) :
    List String :=
  endpoints.flatMap (fun e =>
    (if e.request_dto = some dname then [e.controller_class] else []) ++
    (if e.response_dto = some dname then [e.controller_class] else []))

/-- Effect of the first loop of `analyze_dependencies` on one dto. -/
def dtoBackLink (endpoints : List EndpointInfo) (d : DtoInfo) : DtoInfo :=
  { d with used_in_controllers :=
      d.used_in_controllers ++ controllersFor endpoints d.name }

/-- Effect of the second (nested) loop on one dto: the names of the
matching entities, in entity order, are appended. -/
def dtoEntityLink (entities : List EntityInfo) (d : DtoInfo) : DtoInfo :=
  { d with mapped_to_entities := d.mapped_to_entities ++
      ((entities.filter (fun e => fieldsIntersect d.fields e.fields)).map
        (fun e => e.name)) }

/-- Effect of the second (nested) loop on one entity: the names of the
matching dtos, in dto order, are appended. -/
def entityDtoLink (dtos : List DtoInfo) (e : EntityInfo) : EntityInfo :=
  { e with mapped_to_dtos := e.mapped_to_dtos ++
      ((dtos.filter (fun d => fieldsIntersect d.fields e.fields)).map
        (fun d => d.name)) }

/-- `analyze_dependencies`, functionally: the first loop appends controller
back-links onto each dto; the second (nested) loop appends, for every
(dto, entity) pair with intersecting field-name sets, the entity name to
the dto's `mapped_to_entities` and the dto name to the entity's
`mapped_to_dtos`.  The appends never touch the `fields` consulted by the
intersection tests, so per dto the appended entity names are the matching
entities in entity order, and per entity the appended dto names are the
matching dtos in dto order, exactly as the in-place mutation produces. -/
def analyzeDependencies (s : ParserState) : ParserState :=
  let dtos1 := s.dtos.map (dtoBackLink s.endpoints)
  { s with
    dtos := dtos1.map (dtoEntityLink s.entities)
    entities := s.entities.map (entityDtoLink dtos1) }

/-! ## `analyze.py` : impact analysis (`DependencyVisualizer.get_impact_analysis`) -/

/-- The result dict of `get_impact_analysis`: either the error dict
`{"error": ...}` or the found dict with its five keys (affected endpoints
are reported as (method, path) pairs, as in the source). -/
inductive ImpactResult where
  | notFound (error : String)
  | found (dto : String)
      (affected_endpoints : List (String × String))
      (affected_services : List String)
      (affected_database_tables : List String)
      (field_mappings : List (String × String))
deriving DecidableEq, Repr

def get_impact_analysis (g : ParserState) (dto_name : String) : ImpactResult :=
  match g.dtos.find? (fun d => d.name = dto_name) with
  | none => .notFound ("DTO " ++ dto_name ++ " not found")
  | some dto =>
    .found dto_name
      (((g.endpoints.filter (fun e =>
          e.request_dto = some dto_name ∨ e.response_dto = some dto_name)).map
        (fun e => (e.method, e.path))))
      ((g.services.filter (fun s => s.used_dtos.contains dto_name)).map
        (fun s => s.name))
      (dto.mapped_to_entities.filterMap (fun en =>
        (g.entities.find? (fun e => e.name = en)).map (fun e => e.table_name)))
      dto.fields

/-! ## `service_mapping.py` : property resolution

`ServiceMappingManager.property_cache : Dict[str, Dict[str, str]]` is
modelled as an association list of (repo key, flattened property table). -/

abbrev PropertyCache := List (String × List (String × String))

/-- `ServiceMappingManager.resolve_property` (lines 114-121): a string
that is not exactly `${...}` is returned unchanged with no lookup; an
exact placeholder is looked up (`s[2:-1]`) in the repository's property
table, yielding `none` when the key (or the repository) is absent. -/
def resolve_property (cache : PropertyCache) (repo_key placeholder : String) :
    Option String :=
  if ¬(pyStartsWith placeholder "$\x7b" = true ∧ pyEndsWith placeholder "\x7d" = true) then
    some placeholder
  else
    let property_path := sliceInner placeholder
    let properties := ((cache.find? (fun p => p.1 = repo_key)).map Prod.snd).getD []
    (properties.find? (fun p => p.1 = property_path)).map Prod.snd

/-! ## `feign_client_parser.py` -/

structure FeignMethod where
  name : String
  http_method : String
  path : String
  request_dto : Option String
  response_dto : Option String
deriving DecidableEq, Repr

/-- `FeignClientParser.http_method_annotations` (set in `__init__`). -/
def http_method_annotations : List (String × String) :=
  [("GetMapping", "GET"), ("PostMapping", "POST"), ("PutMapping", "PUT"),
   ("DeleteMapping", "DELETE"), ("PatchMapping", "PATCH"),
   ("RequestMapping", "GET")]

/-- The path-extraction loop of `_parse_feign_method`: every
`value`/`path` name-value pair or bare literal argument reassigns the
path (last one wins). -/
def feignPathOfArgs (args : List AnnArg) : String :=
  args.foldl (fun p arg =>
    match arg with
    | .pair n v => if n = "value" ∨ n = "path" then stripQuotes v else p
    | .lit v => stripQuotes v
    | _ => p) ""

/-- The request-DTO loop of `_parse_feign_method` (lines 130-134), code
identical to the one in `_parse_endpoint_method`. -/
def feignRequestDto (params : List JParam) : Option String :=
  params.foldl requestDtoStep none

/-- `FeignClientParser._parse_feign_method`: the first annotation found in
`http_method_annotations` fixes the verb and the path (the Python loop
`break`s after it); a method with none yields `none`.  The
response-DTO check is the same code as in `_parse_endpoint_method`. -/
def parseFeignMethod (m : JMethod) : Option FeignMethod :=
  match m.annotations.find?
      (fun a => (http_method_annotations.find? (fun p => p.1 = a.name)).isSome) with
  | none => none
  | some ann =>
    some { name := m.name
           http_method :=
             ((http_method_annotations.find? (fun p => p.1 = ann.name)).map
               Prod.snd).getD ""
           path := feignPathOfArgs ann.args
           request_dto := feignRequestDto m.params
           response_dto := findResponseDto m.returnType }

/-- The URL-resolution step of `parse_feign_client` (lines 83-88): when
the declared base URL is truthy and contains `${`, it is passed to
`resolve_property` keyed by `Path(repo_path).name`; a truthy result
replaces the URL, otherwise the URL is kept verbatim. -/
def resolveFeignUrl (cache : PropertyCache) (repo_path : String)
    (url_value : Option String) : Option String :=
  match url_value with
  | none => none
  | some url =>
    if url ≠ "" ∧ pyContains url "$\x7b" = true then
      match resolve_property cache (pathName repo_path) url with
      | some resolved => if resolved ≠ "" then some resolved else some url
      | none => some url
    else some url

/-- A handler method whose only mapping annotation is the verb-agnostic
`RequestMapping`, used to witness the GET default. -/
def requestOnlyMethod : JMethod :=
  { name := "list", annotations := [⟨"RequestMapping", []⟩],
    params := [], returnType := none }

/-- The controller of the spec's scenario: base path `/orders`, one
POST-mapped handler `/create` taking `OrderDTO`, returning
`OrderResponseDTO` (annotation literals carry their source quotes). -/
def orderController : ClassDecl :=
  { name := "OrderController"
    annotations := [⟨"RestController", []⟩, ⟨"RequestMapping", [.lit "\"/orders\""]⟩]
    fields := []
    methods := [{ name := "createOrder"
                  annotations := [⟨"PostMapping", [.lit "\"/create\""]⟩]
                  params := [⟨some "OrderDTO"⟩]
                  returnType := some "OrderResponseDTO" }] }

/-- the request-DTO criterion on one parameter. -/
def isDtoParam (p : JParam) : Bool :=
  match p.typeName with
  | some t => pyEndsWith t "DTO"
  | none => false

/-- A handler with two DTO-typed parameters, `OrderDTO` first. -/
def twoDtoMethod : JMethod :=
  { name := "handle", annotations := [⟨"PostMapping", []⟩]
    params := [⟨some "OrderDTO"⟩, ⟨some "PaymentDTO"⟩], returnType := none }

/-- An entity class with one field `owner : Customer` carrying both
`@OneToMany` and `@ManyToOne`. -/
def multiRelEntity : ClassDecl :=
  { name := "Order", annotations := [⟨"Entity", []⟩]
    fields := [⟨"Customer", ["owner"], [⟨"OneToMany", []⟩, ⟨"ManyToOne", []⟩]⟩]
    methods := [] }

/-- The scenario's configuration table: repository
`spring-order-service` maps `order.service.url` to the service URL. -/
def cacheC8 : PropertyCache :=
  [("spring-order-service", [("order.service.url", "http://order-svc:8080")])]

/-- A configuration table that does contain the embedded key `host`. -/
def cacheC10 : PropertyCache := [("svc", [("host", "http://h")])]

/-- One contract with no consumers at all, plus an unknown name, for the
witness. -/
def gC3 : ParserState :=
  { endpoints := [], dtos := [⟨"LonelyDTO", [("id", "Long")], [], [], []⟩],
    entities := [], services := [] }

/-- The extraction state of the spec's field-overlap scenario: contract
`OrderDTO` and entity `Order` share the field name `id` with differing
declared types. -/
def sC2 : ParserState :=
  { endpoints := []
    dtos := [⟨"OrderDTO", [("id", "Long")], [], [], []⟩]
    entities := [⟨"Order", "order", [("id", "String")], [], []⟩]
    services := [] }

/-- the contract record after one resolver run over `sC2`. -/
def dC2 : DtoInfo := ⟨"OrderDTO", [("id", "Long")], [], [], ["Order"]⟩

/-- the entity record after one resolver run over `sC2`. -/
def eC2 : EntityInfo := ⟨"Order", "order", [("id", "String")], [], ["OrderDTO"]⟩

/-- One contract and one entity sharing the field name `id`: already
enough to make a second resolver run observable. -/
def sC6 : ParserState :=
  { endpoints := []
    dtos := [⟨"OrderDTO", [("id", "Long")], [], [], []⟩]
    entities := [⟨"Order", "order", [("id", "String")], [], []⟩]
    services := [] }

/-- View of a dto that keeps every untouched component as-is and the two
lists the resolver appends to only up to their underlying set. -/
def dtoView (d : DtoInfo) :
    String × List (String × String) × List String × Finset String × Finset String :=
  (d.name, d.fields, d.used_in_services, d.used_in_controllers.toFinset,
   d.mapped_to_entities.toFinset)

/-- Same for an entity. -/
def entityView (e : EntityInfo) :
    String × String × List (String × String) × List Relationship × Finset String :=
  (e.name, e.table_name, e.fields, e.relationships, e.mapped_to_dtos.toFinset)

/-- A file whose raw text mentions `@RestController` only inside a
comment while its sole declaration is an `@Entity` class. -/
def fC9 : JavaFile :=
  { fileName := "Foo.java"
    content := "// @RestController\n@Entity class Foo \x7b Long id; \x7d"
    parseResult := some [⟨"Foo", [⟨"Entity", []⟩], [⟨"Long", ["id"], []⟩], []⟩] }

/-- The agreement condition under which the pre-filter is harmless: each
textual marker occurs in the raw text exactly when some parsed
declaration carries it, and the file name contains the contract suffix
exactly when some declared type name ends with it. -/
def markersAgreeB (f : JavaFile) : Bool :=
  match f.parseResult with
  | none => true
  | some tree =>
    (pyContains f.content "@RestController" ==
      tree.any (fun cd => cd.annotations.any (fun a => a.name = "RestController"))) &&
    (pyContains f.content "@Entity" ==
      tree.any (fun cd => cd.annotations.any (fun a => a.name = "Entity"))) &&
    (pyContains f.fileName "DTO" ==
      tree.any (fun cd => pyEndsWith cd.name "DTO")) &&
    (pyContains f.content "@Service" ==
      tree.any (fun cd => cd.annotations.any (fun a => a.name = "Service")))

/-- A well-behaved entity file: its raw text and its declarations carry
exactly the same markers. -/
def fC9w : JavaFile :=
  { fileName := "Foo.java"
    content := "@Entity class Foo"
    parseResult := some [⟨"Foo", [⟨"Entity", []⟩], [⟨"Long", ["id"], []⟩], []⟩] }

/-! ## Shared lemmas -/

lemma verbOf_allowed (n : String) (h : mappingAnnotations.contains n = true) :
    verbOf n ∈ ["GET", "POST", "PUT", "DELETE", "PATCH"] := by
  simp only [mappingAnnotations] at h
  simp at h
  rcases h with rfl | rfl | rfl | rfl | rfl | rfl <;> decide

lemma pathArgsConcat_append (bp : String) (args : List AnnArg) :
    pathArgsConcat bp args = bp ++ pathArgsConcat "" args := by
  induction args generalizing bp with
  | nil => simp [pathArgsConcat]
  | cons a as ih =>
    cases a with
    | lit v =>
      show pathArgsConcat (bp ++ stripQuotes v) as = bp ++ pathArgsConcat ("" ++ stripQuotes v) as
      rw [String.empty_append, ih (bp ++ stripQuotes v), ih (stripQuotes v),
        String.append_assoc]
    | pair n v => exact ih bp
    | pairMember n m => exact ih bp
    | other => exact ih bp

/-! ## C1 -/

lemma parseEndpointMethod_method_allowed (m : JMethod) (cn bp : String)
    (ep : EndpointInfo) (h : parseEndpointMethod m cn bp = some ep) :
    ep.method ∈ ["GET", "POST", "PUT", "DELETE", "PATCH"] := by
  unfold parseEndpointMethod at h
  cases hfind : m.annotations.find? (fun a => mappingAnnotations.contains a.name) with
  | none => rw [hfind] at h; exact absurd h (by simp)
  | some ann =>
    rw [hfind] at h
    have hp := List.find?_some hfind
    have hm : ep.method = verbOf ann.name := by cases h; rfl
    rw [hm]
    exact verbOf_allowed ann.name hp

lemma parseControllerClass_method_allowed (cd : ClassDecl) (ep : EndpointInfo)
    (h : ep ∈ parseControllerClass cd) :
    ep.method ∈ ["GET", "POST", "PUT", "DELETE", "PATCH"] := by
  unfold parseControllerClass at h
  split at h
  · obtain ⟨m, _, hm⟩ := List.mem_filterMap.mp h
    exact parseEndpointMethod_method_allowed _ _ _ _ hm
  · cases h

lemma foldl_endpoints_invariant {α : Type} (f : ParserState → α → ParserState)
    (hf : ∀ st a, (f st a).endpoints = st.endpoints) (l : List α)
    (st : ParserState) : (l.foldl f st).endpoints = st.endpoints := by
  induction l generalizing st with
  | nil => rfl
  | cons a as ih => rw [List.foldl_cons, ih, hf]

lemma parseDtoTree_endpoints (st : ParserState) (tree : List ClassDecl) :
    (parseDtoTree st tree).endpoints = st.endpoints :=
  foldl_endpoints_invariant _
    (fun st cd => by cases h : dtoOfClass cd <;> simp [h]) tree st

lemma parseEntityTree_endpoints (st : ParserState) (tree : List ClassDecl) :
    (parseEntityTree st tree).endpoints = st.endpoints :=
  foldl_endpoints_invariant _
    (fun st cd => by cases h : entityOfClass cd <;> simp [h]) tree st

lemma parseServiceTree_endpoints (st : ParserState) (tree : List ClassDecl) :
    (parseServiceTree st tree).endpoints = st.endpoints :=
  foldl_endpoints_invariant _
    (fun st cd => by cases h : serviceOfClass st.entities cd <;> simp [h]) tree st

lemma processFilePrefilter_method_allowed (st : ParserState) (f : JavaFile)
    (hst : ∀ x ∈ st.endpoints, x.method ∈ ["GET", "POST", "PUT", "DELETE", "PATCH"]) :
    ∀ ep ∈ (processFilePrefilter st f).endpoints,
      ep.method ∈ ["GET", "POST", "PUT", "DELETE", "PATCH"] := by
  intro ep hep
  unfold processFilePrefilter at hep
  cases hp : f.parseResult with
  | none =>
    simp only [onTree, hp] at hep
    repeat' split at hep
    all_goals exact hst ep hep
  | some tree =>
    simp only [onTree, hp] at hep
    repeat' split at hep
    · unfold parseControllerTree at hep
      rcases List.mem_append.mp hep with hl | hr
      · exact hst ep hl
      · obtain ⟨cd, _, hcd⟩ := List.mem_flatMap.mp hr
        exact parseControllerClass_method_allowed cd ep hcd
    · rw [parseEntityTree_endpoints] at hep
      exact hst ep hep
    · rw [parseDtoTree_endpoints] at hep
      exact hst ep hep
    · rw [parseServiceTree_endpoints] at hep
      exact hst ep hep
    · exact hst ep hep

lemma prefilter_endpoints_methods (files : List JavaFile) (st : ParserState)
    (hst : ∀ ep ∈ st.endpoints, ep.method ∈ ["GET", "POST", "PUT", "DELETE", "PATCH"]) :
    ∀ ep ∈ (files.foldl processFilePrefilter st).endpoints,
      ep.method ∈ ["GET", "POST", "PUT", "DELETE", "PATCH"] := by
  induction files generalizing st with
  | nil => exact hst
  | cons f fs ih =>
    rw [List.foldl_cons]
    exact ih _ (processFilePrefilter_method_allowed st f hst)

/-- C1: every `EndpointInfo` produced by `_parse_endpoint_method` has an
HTTP method in {GET, POST, PUT, DELETE, PATCH}; a handler carrying only
verb-agnostic `RequestMapping` markers yields an endpoint with method
`GET`; and every verb in the Feign parser's `http_method_annotations`
table lies in the same set, with `RequestMapping` mapped to `GET`. -/
theorem endpoint_method_enumerated (m : JMethod) (cn bp : String) :
    (∀ ep, parseEndpointMethod m cn bp = some ep →
      ep.method ∈ ["GET", "POST", "PUT", "DELETE", "PATCH"]) ∧
    ((∃ a ∈ m.annotations, a.name = "RequestMapping") →
     (∀ a ∈ m.annotations, mappingAnnotations.contains a.name = true →
        a.name = "RequestMapping") →
     ∃ ep, parseEndpointMethod m cn bp = some ep ∧ ep.method = "GET") ∧
    (∀ (files : List JavaFile),
      ∀ ep ∈ (analyzeDependencies
          (files.foldl processFilePrefilter emptyState)).endpoints,
        ep.method ∈ ["GET", "POST", "PUT", "DELETE", "PATCH"]) ∧
    ((∀ p ∈ http_method_annotations,
        p.2 ∈ ["GET", "POST", "PUT", "DELETE", "PATCH"]) ∧
      http_method_annotations.find? (fun p => p.1 = "RequestMapping") =
        some ("RequestMapping", "GET")) := by
  refine ⟨fun ep hep => parseEndpointMethod_method_allowed m cn bp ep hep,
    ?_, ?_, by decide⟩
  · intro hex hall
    obtain ⟨a, ha, hname⟩ := hex
    have hsome : (m.annotations.find?
        (fun a => mappingAnnotations.contains a.name)).isSome = true := by
      rw [List.find?_isSome]
      exact ⟨a, ha, by rw [hname]; decide⟩
    obtain ⟨ann, hfind⟩ := Option.isSome_iff_exists.mp hsome
    have hp := List.find?_some hfind
    have hmem := List.mem_of_find?_eq_some hfind
    have hreq : ann.name = "RequestMapping" := hall ann hmem hp
    refine ⟨_, by unfold parseEndpointMethod; rw [hfind], ?_⟩
    show verbOf ann.name = "GET"
    rw [hreq]; decide
  · intro files ep hep
    exact prefilter_endpoints_methods files emptyState (by simp [emptyState]) ep hep

theorem endpoint_method_enumerated_witness :
    ∃ ep, parseEndpointMethod requestOnlyMethod "OrderController" "" = some ep ∧
      ep.method = "GET" :=
  (endpoint_method_enumerated requestOnlyMethod "OrderController" "").2.1
    (by decide) (by decide)

/-! ## C4 -/

/-- C4: every emitted endpoint's path is the base path followed by the
concatenation of the mapping annotation's own (stripped) literal
arguments, in that order and with no normalization; and the spec's
`/orders` + POST `/create` scenario yields exactly the expected endpoint. -/
theorem endpoint_path_concatenation :
    (∀ (m : JMethod) (cn bp : String) (ann : Annotation) (ep : EndpointInfo),
      m.annotations.find? (fun a => mappingAnnotations.contains a.name) = some ann →
      parseEndpointMethod m cn bp = some ep →
      ep.path = bp ++ pathArgsConcat "" ann.args) ∧
    parseControllerClass orderController =
      [{ path := "/orders/create", method := "POST",
         controller_class := "OrderController", method_name := "createOrder",
         request_dto := some "OrderDTO",
         response_dto := some "OrderResponseDTO" }] := by
  constructor
  · intro m cn bp ann ep hfind hep
    unfold parseEndpointMethod at hep
    rw [hfind] at hep
    have : ep.path = pathArgsConcat bp ann.args := by cases hep; rfl
    rw [this, pathArgsConcat_append]
  · decide

theorem endpoint_path_concatenation_witness :
    ({ path := "/orders/create", method := "POST",
       controller_class := "OrderController", method_name := "createOrder",
       request_dto := some "OrderDTO",
       response_dto := some "OrderResponseDTO" : EndpointInfo }).path =
      "/orders" ++ pathArgsConcat "" [AnnArg.lit "\"/create\""] :=
  endpoint_path_concatenation.1
    { name := "createOrder"
      annotations := [⟨"PostMapping", [.lit "\"/create\""]⟩]
      params := [⟨some "OrderDTO"⟩]
      returnType := some "OrderResponseDTO" }
    "OrderController" "/orders" ⟨"PostMapping", [.lit "\"/create\""]⟩ _
    (by decide) (by decide)

/-! ## C5 -/

lemma requestDtoStep_eq (acc : Option String) (p : JParam) :
    requestDtoStep acc p = if isDtoParam p then p.typeName else acc := by
  cases htn : p.typeName <;> simp [requestDtoStep, isDtoParam, htn]

/-- C5 counterexample: with parameters `(OrderDTO, PaymentDTO)` the
recorded request contract is the *last* matching parameter `PaymentDTO`,
not the first as the claim states. -/
theorem request_dto_first_param_counterexample :
    (parseEndpointMethod twoDtoMethod "OrderController" "").map
      EndpointInfo.request_dto = some (some "PaymentDTO") ∧
    ¬ (parseEndpointMethod twoDtoMethod "OrderController" "").map
      EndpointInfo.request_dto = some (some "OrderDTO") := by decide

/-- C5 amended: the recorded request contract is the *last* parameter (in
declaration order) whose declared type name ends with `DTO`; earlier
matching parameters are overwritten; exactly one request contract is
recorded; and the Feign method parser applies the identical rule. -/
theorem request_dto_last_param (params : List JParam) :
    findRequestDto params =
      (params.reverse.find? isDtoParam).bind JParam.typeName ∧
    feignRequestDto params = findRequestDto params := by
  constructor
  · show params.foldl requestDtoStep none = _
    induction params using List.reverseRecOn with
    | nil => rfl
    | append_singleton ps p ih =>
      rw [List.foldl_append, List.foldl_cons, List.foldl_nil,
        List.reverse_append, List.reverse_singleton, List.singleton_append,
        List.find?_cons]
      cases hp : isDtoParam p with
      | true => simp [requestDtoStep_eq, hp]
      | false => simp [requestDtoStep_eq, hp, ih]
  · rfl

/-! ## C7 -/

/-- C7 counterexample: a field carrying two relationship markers produces
*two* relationship records (one per marker, in annotation-declaration
order), not just the last one as the claim states. -/
theorem relationship_single_record_counterexample :
    (entityOfClass multiRelEntity).map EntityInfo.relationships =
      some [⟨"OneToMany", "owner", "Customer"⟩,
            ⟨"ManyToOne", "owner", "Customer"⟩] ∧
    ¬ (entityOfClass multiRelEntity).map EntityInfo.relationships =
      some [⟨"ManyToOne", "owner", "Customer"⟩] := by decide

lemma filterMap_ite_eq_filter_map {α β : Type} (p : α → Bool) (g : α → β)
    (l : List α) :
    l.filterMap (fun a => if p a then some (g a) else none) =
      (l.filter p).map g := by
  induction l with
  | nil => rfl
  | cons a as ih =>
    cases hp : p a <;>
      simp [List.filterMap_cons, List.filter_cons, hp, ih]

/-- C7 amended: for a single-declarator entity field, *every*
relationship-kind marker on the field yields its own relationship record;
the records appear in annotation-declaration order (none is discarded),
each with the field's declared type as the target entity name. -/
theorem relationship_one_record_per_marker (f : JField) (d : String)
    (h : f.declarators = [d]) :
    fieldRelationships f =
      (f.annotations.filter
        (fun a => relationshipAnnotations.contains a.name)).map
        (fun a => { type := a.name, field := d, target_entity := f.typeName }) := by
  rw [fieldRelationships, h]
  simp only [List.flatMap_cons, List.flatMap_nil, List.append_nil]
  exact filterMap_ite_eq_filter_map _ _ _

theorem relationship_one_record_per_marker_witness :
    fieldRelationships ⟨"Customer", ["owner"], [⟨"OneToMany", []⟩, ⟨"ManyToOne", []⟩]⟩ =
      (([⟨"OneToMany", []⟩, ⟨"ManyToOne", []⟩] : List Annotation).filter
        (fun a => relationshipAnnotations.contains a.name)).map
        (fun a => { type := a.name, field := "owner", target_entity := "Customer" }) :=
  relationship_one_record_per_marker
    ⟨"Customer", ["owner"], [⟨"OneToMany", []⟩, ⟨"ManyToOne", []⟩]⟩ "owner" rfl

/-! ## C8 and C10 -/

lemma pyContains_of_pyStartsWith (s p : String) (h : pyStartsWith s p = true) :
    pyContains s p = true := by
  unfold pyContains
  rw [List.any_eq_true]
  exact ⟨s.toList, by rw [List.mem_tails], h⟩

/-- C8: for a base URL that is exactly a `${...}` placeholder, the Feign
URL-resolution step goes through `resolve_property` keyed by the client's
owning repository identity (`Path(repo_path).name`): a non-empty
configuration value replaces the URL, and when the lookup fails the
placeholder is left verbatim in the stored URL. -/
theorem feign_url_placeholder_resolution (cache : PropertyCache)
    (repo_path url : String)
    (h1 : pyStartsWith url "$\x7b" = true) (_h2 : pyEndsWith url "\x7d" = true)
    (h0 : url ≠ "") :
    (∀ v, resolve_property cache (pathName repo_path) url = some v → v ≠ "" →
      resolveFeignUrl cache repo_path (some url) = some v) ∧
    (resolve_property cache (pathName repo_path) url = none →
      resolveFeignUrl cache repo_path (some url) = some url) := by
  have hc : pyContains url "$\x7b" = true :=
    pyContains_of_pyStartsWith url "$\x7b" h1
  constructor
  · intro v hv hv0
    simp [resolveFeignUrl, h0, hc, hv, hv0]
  · intro hv
    simp [resolveFeignUrl, h0, hc, hv]

theorem feign_url_placeholder_resolution_witness :
    resolveFeignUrl cacheC8 "repos/spring-order-service"
      (some "$\x7border.service.url\x7d") = some "http://order-svc:8080" ∧
    resolveFeignUrl cacheC8 "repos/spring-order-service"
      (some "$\x7bmissing.url\x7d") = some "$\x7bmissing.url\x7d" :=
  ⟨(feign_url_placeholder_resolution cacheC8 "repos/spring-order-service"
      "$\x7border.service.url\x7d" (by decide) (by decide) (by decide)).1
      "http://order-svc:8080" (by decide) (by decide),
   (feign_url_placeholder_resolution cacheC8 "repos/spring-order-service"
      "$\x7bmissing.url\x7d" (by decide) (by decide) (by decide)).2 (by decide)⟩

/-- C10: `resolve_property` substitutes only when its input is exactly one
placeholder; any other string — in particular a URL embedding a
placeholder among other characters — is returned unchanged for every
configuration table, and the Feign URL-resolution step therefore stores it
verbatim even when the embedded key exists in the table. -/
theorem resolve_property_exact_placeholder_only (cache : PropertyCache)
    (repo_path s : String)
    (h : ¬(pyStartsWith s "$\x7b" = true ∧ pyEndsWith s "\x7d" = true)) :
    resolve_property cache (pathName repo_path) s = some s ∧
    resolveFeignUrl cache repo_path (some s) = some s := by
  have hr : ∀ k, resolve_property cache k s = some s := by
    intro k
    simp only [resolve_property, h, not_false_eq_true, if_pos]
  refine ⟨hr _, ?_⟩
  by_cases h0 : s = ""
  · simp [resolveFeignUrl, h0]
  · by_cases hc : pyContains s "$\x7b" = true
    · simp [resolveFeignUrl, h0, hc, hr]
    · simp [resolveFeignUrl, h0, hc]

theorem resolve_property_exact_placeholder_only_witness :
    resolve_property cacheC10 (pathName "repos/svc") "$\x7bhost\x7d/api" =
      some "$\x7bhost\x7d/api" ∧
    resolveFeignUrl cacheC10 "repos/svc" (some "$\x7bhost\x7d/api") =
      some "$\x7bhost\x7d/api" :=
  resolve_property_exact_placeholder_only cacheC10 "repos/svc"
    "$\x7bhost\x7d/api" (by decide)

/-! ## C3 -/

lemma find?_eq_some_of_nodup {α : Type} (f : α → String) (l : List α)
    (hn : (l.map f).Nodup) (a : α) (ha : a ∈ l) (n : String) (hfa : f a = n) :
    l.find? (fun x => f x = n) = some a := by
  induction l with
  | nil => cases ha
  | cons b bs ih =>
    rw [List.map_cons, List.nodup_cons] at hn
    by_cases hb : f b = n
    · have hab : a = b := by
        rcases List.mem_cons.mp ha with rfl | hmem
        · rfl
        · exfalso
          exact hn.1 (by rw [hb, ← hfa]; exact List.mem_map_of_mem f hmem)
      subst hab
      simp [List.find?_cons, hb]
    · have hmem : a ∈ bs := by
        rcases List.mem_cons.mp ha with rfl | hmem
        · exact absurd hfa hb
        · exact hmem
      simp only [List.find?_cons, hb, decide_False]
      exact ih hn.2 hmem

/-- C3: impact analysis returns a not-found result iff the contract name
is absent from the discovered contracts; for any known contract it
returns a found result whose field mapping is the contract's recorded
fields and whose endpoint / service / table lists contain exactly the
(possibly empty) dependents: endpoints referencing the contract as
request or response, services whose used-contracts contain it, and the
table names of the entities it was matched to. -/
theorem impact_analysis_found_iff (g : ParserState) (n : String)
    (hd : (g.dtos.map DtoInfo.name).Nodup)
    (he : (g.entities.map EntityInfo.name).Nodup) :
    ((∃ msg, get_impact_analysis g n = ImpactResult.notFound msg) ↔
      ∀ d ∈ g.dtos, d.name ≠ n) ∧
    (∀ d ∈ g.dtos, d.name = n →
      ∃ eps svcs tabs,
        get_impact_analysis g n = ImpactResult.found n eps svcs tabs d.fields ∧
        (∀ mp, mp ∈ eps ↔ ∃ e ∈ g.endpoints,
          (e.request_dto = some n ∨ e.response_dto = some n) ∧
          mp = (e.method, e.path)) ∧
        (∀ sn, sn ∈ svcs ↔ ∃ sv ∈ g.services,
          sv.used_dtos.contains n = true ∧ sv.name = sn) ∧
        (∀ t, t ∈ tabs ↔ ∃ en ∈ d.mapped_to_entities, ∃ e ∈ g.entities,
          e.name = en ∧ e.table_name = t)) := by
  constructor
  · cases hf : g.dtos.find? (fun d => d.name = n) with
    | none =>
      rw [List.find?_eq_none] at hf
      constructor
      · intro _ d hdm
        have := hf d hdm
        simpa using this
      · intro _
        exact ⟨"DTO " ++ n ++ " not found", by
          unfold get_impact_analysis
          rw [List.find?_eq_none.mpr (by intro d hdm; simpa using hf d hdm)]⟩
    | some d =>
      constructor
      · intro ⟨msg, hmsg⟩
        unfold get_impact_analysis at hmsg
        rw [hf] at hmsg
        cases hmsg
      · intro hall
        have hp := List.find?_some hf
        have hm := List.mem_of_find?_eq_some hf
        exact absurd (by simpa using hp) (hall d hm)
  · intro d hdm hdn
    have hf : g.dtos.find? (fun x => x.name = n) = some d :=
      find?_eq_some_of_nodup DtoInfo.name g.dtos hd d hdm n hdn
    refine ⟨_, _, _, by unfold get_impact_analysis; rw [hf], ?_, ?_, ?_⟩
    · intro mp
      simp only [List.mem_map, List.mem_filter]
      constructor
      · rintro ⟨e, ⟨hme, hpe⟩, rfl⟩
        exact ⟨e, hme, by simpa using hpe, rfl⟩
      · rintro ⟨e, hme, hpe, rfl⟩
        exact ⟨e, ⟨hme, by simpa using hpe⟩, rfl⟩
    · intro sn
      simp only [List.mem_map, List.mem_filter]
      constructor
      · rintro ⟨sv, ⟨hms, hps⟩, rfl⟩
        exact ⟨sv, hms, hps, rfl⟩
      · rintro ⟨sv, hms, hps, rfl⟩
        exact ⟨sv, ⟨hms, hps⟩, rfl⟩
    · intro t
      simp only [List.mem_filterMap]
      constructor
      · rintro ⟨en, hen, hsome⟩
        rw [Option.map_eq_some'] at hsome
        obtain ⟨e, hfe, rfl⟩ := hsome
        have hpe := List.find?_some hfe
        exact ⟨en, hen, e, List.mem_of_find?_eq_some hfe, by simpa using hpe, rfl⟩
      · rintro ⟨en, hen, e, hme, hname, rfl⟩
        refine ⟨en, hen, ?_⟩
        rw [find?_eq_some_of_nodup EntityInfo.name g.entities he e hme en hname]
        rfl

theorem impact_analysis_found_iff_witness :
    (∃ msg, get_impact_analysis gC3 "MissingDTO" = ImpactResult.notFound msg) ↔
      ∀ d ∈ gC3.dtos, d.name ≠ "MissingDTO" :=
  (impact_analysis_found_iff gC3 "MissingDTO" (by decide) (by decide)).1

/-! ## C2 -/

@[simp] lemma dtoBackLink_name (eps : List EndpointInfo) (d : DtoInfo) :
    (dtoBackLink eps d).name = d.name := rfl

@[simp] lemma dtoBackLink_fields (eps : List EndpointInfo) (d : DtoInfo) :
    (dtoBackLink eps d).fields = d.fields := rfl

@[simp] lemma dtoBackLink_mapped (eps : List EndpointInfo) (d : DtoInfo) :
    (dtoBackLink eps d).mapped_to_entities = d.mapped_to_entities := rfl

@[simp] lemma dtoEntityLink_name (es : List EntityInfo) (d : DtoInfo) :
    (dtoEntityLink es d).name = d.name := rfl

@[simp] lemma dtoEntityLink_fields (es : List EntityInfo) (d : DtoInfo) :
    (dtoEntityLink es d).fields = d.fields := rfl

@[simp] lemma dtoEntityLink_uic (es : List EntityInfo) (d : DtoInfo) :
    (dtoEntityLink es d).used_in_controllers = d.used_in_controllers := rfl

@[simp] lemma entityDtoLink_name (ds : List DtoInfo) (e : EntityInfo) :
    (entityDtoLink ds e).name = e.name := rfl

@[simp] lemma entityDtoLink_fields (ds : List DtoInfo) (e : EntityInfo) :
    (entityDtoLink ds e).fields = e.fields := rfl

lemma analyzeDependencies_dtos (s : ParserState) :
    (analyzeDependencies s).dtos =
      (s.dtos.map (dtoBackLink s.endpoints)).map (dtoEntityLink s.entities) := rfl

lemma analyzeDependencies_entities (s : ParserState) :
    (analyzeDependencies s).entities =
      s.entities.map (entityDtoLink (s.dtos.map (dtoBackLink s.endpoints))) := rfl

lemma analyzeDependencies_endpoints (s : ParserState) :
    (analyzeDependencies s).endpoints = s.endpoints := rfl

lemma analyzeDependencies_services (s : ParserState) :
    (analyzeDependencies s).services = s.services := rfl

/-- C2: after the resolver runs once over the collections produced by
extraction (all matched lists still empty, class names unique), a
contract's matched-entities list contains an entity's name iff their
field-name sets intersect, and the relation is symmetric in effect: the
dto name sits in the entity's matched-contracts list exactly when the
entity name sits in the dto's matched-entities list. -/
theorem contract_entity_link_iff (s : ParserState)
    (hdn : (s.dtos.map DtoInfo.name).Nodup)
    (hen : (s.entities.map EntityInfo.name).Nodup)
    (hde : ∀ d ∈ s.dtos, d.mapped_to_entities = [])
    (hee : ∀ e ∈ s.entities, e.mapped_to_dtos = []) :
    ∀ d ∈ (analyzeDependencies s).dtos, ∀ e ∈ (analyzeDependencies s).entities,
      (e.name ∈ d.mapped_to_entities ↔ fieldsIntersect d.fields e.fields = true) ∧
      (d.name ∈ e.mapped_to_dtos ↔ e.name ∈ d.mapped_to_entities) := by
  intro d hd e he
  rw [analyzeDependencies_dtos, List.map_map] at hd
  rw [analyzeDependencies_entities] at he
  obtain ⟨d0, hd0m, rfl⟩ := List.mem_map.mp hd
  obtain ⟨e0, he0m, rfl⟩ := List.mem_map.mp he
  have hinjD := List.inj_on_of_nodup_map hdn
  have hinjE := List.inj_on_of_nodup_map hen
  have part1 :
      (entityDtoLink (s.dtos.map (dtoBackLink s.endpoints)) e0).name ∈
        ((dtoEntityLink s.entities ∘ dtoBackLink s.endpoints) d0).mapped_to_entities ↔
      fieldsIntersect d0.fields e0.fields = true := by
    simp only [Function.comp_apply, dtoEntityLink, dtoBackLink_mapped,
      dtoBackLink_fields, entityDtoLink_name, hde d0 hd0m, List.nil_append]
    constructor
    · intro h
      obtain ⟨e1, he1, hname⟩ := List.mem_map.mp h
      obtain ⟨he1m, hpred⟩ := List.mem_filter.mp he1
      have : e1 = e0 := hinjE he1m he0m hname
      subst this
      exact hpred
    · intro h
      exact List.mem_map_of_mem _ (List.mem_filter.mpr ⟨he0m, h⟩)
  refine ⟨part1, ?_⟩
  rw [part1]
  simp only [Function.comp_apply, entityDtoLink, dtoEntityLink_name,
    dtoBackLink_name, hee e0 he0m, List.nil_append]
  constructor
  · intro h
    obtain ⟨d1, hd1, hname⟩ := List.mem_map.mp h
    obtain ⟨hd1m, hpred⟩ := List.mem_filter.mp hd1
    obtain ⟨d2, hd2m, rfl⟩ := List.mem_map.mp hd1m
    rw [dtoBackLink_name] at hname
    have : d2 = d0 := hinjD hd2m hd0m hname
    subst this
    rw [dtoBackLink_fields] at hpred
    exact hpred
  · intro h
    have hx : dtoBackLink s.endpoints d0 ∈
        (s.dtos.map (dtoBackLink s.endpoints)).filter
          (fun d1 => fieldsIntersect d1.fields e0.fields) :=
      List.mem_filter.mpr
        ⟨List.mem_map_of_mem _ hd0m, by rw [dtoBackLink_fields]; exact h⟩
    have hmm := List.mem_map_of_mem DtoInfo.name hx
    rw [dtoBackLink_name] at hmm
    exact hmm

theorem contract_entity_link_iff_witness :
    (eC2.name ∈ dC2.mapped_to_entities ↔
      fieldsIntersect dC2.fields eC2.fields = true) ∧
    (dC2.name ∈ eC2.mapped_to_dtos ↔ eC2.name ∈ dC2.mapped_to_entities) :=
  contract_entity_link_iff sC2 (by decide) (by decide) (by decide) (by decide)
    dC2 (by decide) eC2 (by decide)

/-! ## C6 -/

/-- C6 counterexample: running `analyze_dependencies` a second time over
the already-resolved collections does *not* reproduce the same state —
the matched lists receive duplicate entries. -/
theorem resolver_rerun_counterexample :
    analyzeDependencies (analyzeDependencies sC6) ≠ analyzeDependencies sC6 := by
  decide

@[simp] lemma dtoBackLink_uis (eps : List EndpointInfo) (d : DtoInfo) :
    (dtoBackLink eps d).used_in_services = d.used_in_services := rfl

@[simp] lemma dtoEntityLink_uis (es : List EntityInfo) (d : DtoInfo) :
    (dtoEntityLink es d).used_in_services = d.used_in_services := rfl

lemma dtoBackLink_uic_eq (eps : List EndpointInfo) (d : DtoInfo) :
    (dtoBackLink eps d).used_in_controllers =
      d.used_in_controllers ++ controllersFor eps d.name := rfl

lemma dtoEntityLink_mapped_eq (es : List EntityInfo) (d : DtoInfo) :
    (dtoEntityLink es d).mapped_to_entities =
      d.mapped_to_entities ++
        ((es.filter (fun e => fieldsIntersect d.fields e.fields)).map
          (fun e => e.name)) := rfl

@[simp] lemma entityDtoLink_table (ds : List DtoInfo) (e : EntityInfo) :
    (entityDtoLink ds e).table_name = e.table_name := rfl

@[simp] lemma entityDtoLink_rels (ds : List DtoInfo) (e : EntityInfo) :
    (entityDtoLink ds e).relationships = e.relationships := rfl

lemma entityDtoLink_mapped_eq (ds : List DtoInfo) (e : EntityInfo) :
    (entityDtoLink ds e).mapped_to_dtos =
      e.mapped_to_dtos ++
        ((ds.filter (fun d => fieldsIntersect d.fields e.fields)).map
          (fun d => d.name)) := rfl

lemma filter_map_name_entity (l : List EntityInfo) (G : EntityInfo → EntityInfo)
    (hn : ∀ e, (G e).name = e.name) (hf : ∀ e, (G e).fields = e.fields)
    (p : List (String × String)) :
    ((l.map G).filter (fun e => fieldsIntersect p e.fields)).map EntityInfo.name =
      (l.filter (fun e => fieldsIntersect p e.fields)).map EntityInfo.name := by
  induction l with
  | nil => rfl
  | cons e es ih =>
    rw [List.map_cons, List.filter_cons, List.filter_cons, hf e]
    cases fieldsIntersect p e.fields
    · simpa using ih
    · simp only [if_pos, List.map_cons, hn e, ih]

lemma filter_map_name_dto (l : List DtoInfo) (G : DtoInfo → DtoInfo)
    (hn : ∀ d, (G d).name = d.name) (hf : ∀ d, (G d).fields = d.fields)
    (q : List (String × String)) :
    ((l.map G).filter (fun d => fieldsIntersect d.fields q)).map DtoInfo.name =
      (l.filter (fun d => fieldsIntersect d.fields q)).map DtoInfo.name := by
  induction l with
  | nil => rfl
  | cons d ds ih =>
    rw [List.map_cons, List.filter_cons, List.filter_cons, hf d]
    cases fieldsIntersect d.fields q
    · simpa using ih
    · simp only [if_pos, List.map_cons, hn d, ih]

/-- C6 amended: a second resolver run over the already-resolved
collections is *not* the identity — it appends the matched names and the
controller back-links a second time — but it changes nothing else: every
dto and entity keeps its name, fields and untouched components, and the
underlying *sets* of linked names (matched entities, matched contracts,
controller back-links) are identical after one run and after two. -/
theorem resolver_rerun_preserves_link_sets (s : ParserState) :
    ((analyzeDependencies (analyzeDependencies s)).dtos.map dtoView =
      (analyzeDependencies s).dtos.map dtoView) ∧
    ((analyzeDependencies (analyzeDependencies s)).entities.map entityView =
      (analyzeDependencies s).entities.map entityView) ∧
    (analyzeDependencies (analyzeDependencies s)).endpoints =
      (analyzeDependencies s).endpoints ∧
    (analyzeDependencies (analyzeDependencies s)).services =
      (analyzeDependencies s).services := by
  refine ⟨?_, ?_, rfl, rfl⟩
  · rw [analyzeDependencies_dtos (analyzeDependencies s),
      analyzeDependencies_endpoints, analyzeDependencies_entities,
      analyzeDependencies_dtos s]
    simp only [List.map_map]
    apply List.map_congr_left
    intro d _
    have hM := filter_map_name_entity s.entities
      (entityDtoLink (s.dtos.map (dtoBackLink s.endpoints)))
      (fun _ => rfl) (fun _ => rfl) d.fields
    simp only [Function.comp_apply, dtoView, dtoBackLink_name,
      dtoBackLink_fields, dtoBackLink_uis, dtoBackLink_mapped,
      dtoBackLink_uic_eq, dtoEntityLink_name, dtoEntityLink_fields,
      dtoEntityLink_uic, dtoEntityLink_uis, dtoEntityLink_mapped_eq, hM,
      List.toFinset_append, Finset.union_assoc, Finset.union_self]
  · rw [analyzeDependencies_entities (analyzeDependencies s),
      analyzeDependencies_endpoints, analyzeDependencies_dtos,
      analyzeDependencies_entities s]
    simp only [List.map_map]
    apply List.map_congr_left
    intro e _
    have hN' := filter_map_name_dto s.dtos
      (dtoBackLink s.endpoints ∘ dtoEntityLink s.entities ∘ dtoBackLink s.endpoints)
      (fun _ => rfl) (fun _ => rfl) e.fields
    have hN := filter_map_name_dto s.dtos (dtoBackLink s.endpoints)
      (fun _ => rfl) (fun _ => rfl) e.fields
    simp only [Function.comp_apply, entityView, entityDtoLink_name,
      entityDtoLink_table, entityDtoLink_fields, entityDtoLink_rels,
      entityDtoLink_mapped_eq, List.map_map] at hN' hN ⊢
    rw [hN', hN]
    simp only [List.toFinset_append, Finset.union_assoc, Finset.union_self]

/-! ## C9 -/

/-- C9 counterexample: the textual pre-filter routes `fC9` to controller
parsing (extracting nothing), while classification from the parsed
declarations extracts its entity — the two strategies produce different
collections. -/
theorem prefilter_equivalence_counterexample :
    processFilePrefilter emptyState fC9 ≠ processFileDeclClassified emptyState fC9 := by
  decide

lemma processFile_eq_of_markersAgree (f : JavaFile)
    (h : markersAgreeB f = true) (st : ParserState) :
    processFilePrefilter st f = processFileDeclClassified st f := by
  unfold markersAgreeB at h
  cases hp : f.parseResult with
  | none =>
    simp [processFilePrefilter, processFileDeclClassified, onTree, hp]
  | some tree =>
    rw [hp] at h
    simp only [Bool.and_eq_true, beq_iff_eq] at h
    obtain ⟨⟨⟨h1, h2⟩, h3⟩, h4⟩ := h
    simp only [processFilePrefilter, processFileDeclClassified, onTree, hp,
      h1, h2, h3, h4]

/-- C9 amended: the coarse textual pre-filter dispatch yields the same
final collections as parsing every file and classifying from the parsed
declarations (same fixed priority) *provided* the textual markers agree
with the declarations (`markersAgreeB`); the equivalence fails in general
(a marker inside a comment or string, or a contract class in a file whose
name lacks the suffix, breaks it). -/
theorem prefilter_matches_decl_classification (files : List JavaFile)
    (h : ∀ f ∈ files, markersAgreeB f = true) (st : ParserState) :
    files.foldl processFilePrefilter st =
      files.foldl processFileDeclClassified st := by
  induction files generalizing st with
  | nil => rfl
  | cons f fs ih =>
    rw [List.foldl_cons, List.foldl_cons,
      processFile_eq_of_markersAgree f (h f (List.mem_cons_self f fs)) st]
    exact ih (fun g hg => h g (List.mem_cons_of_mem f hg)) _

theorem prefilter_matches_decl_classification_witness :
    [fC9w].foldl processFilePrefilter emptyState =
      [fC9w].foldl processFileDeclClassified emptyState :=
  prefilter_matches_decl_classification [fC9w] (by decide) emptyState

end SpringParser

